import Mathlib

/-!
Verification of the anatomy / equipment-slot model (body.c, races.c,
character.c) of the nesiadmud engine.

The C data structures are embedded shallowly: the generic `LIST` container
becomes a Lean `List` (the spec fixes that insertion order is preserved and is
the iteration order, so `listPut` is modelled as append), `OBJ_DATA *` pointers
become values compared for identity by structural equality, machine `int`
weights become `Int`, and C `double` arithmetic in `bodyPartRatio` becomes
exact rational arithmetic over `ℚ`.  Mutation of a body through `BODYPART *`
pointers is modelled by index-based surgery on the body's part list, which
captures pointer identity (the staging lists in the equip engine hold part
pointers; we hold part indices).
-/

/-- Equality of strings up to ASCII case, modelling `strcasecmp(a, b) == 0`:
both character sequences are lowercased pointwise and compared. -/
def strcaseEq (a b : String) : Bool :=
  a.data.map Char.toLower == b.data.map Char.toLower

/-- Modelled from the spec: items live in the item subsystem
(`items/items.h`), whose sources are not present.  The body code needs only
object identity (pointer comparison in `listIn` / `listRemove`) and the
item-class membership test `objIsType` used by the layering rule ("none of the
part's current occupants belong to that class").  An object is an identity
plus the collection of equipment classes it belongs to. -/
structure OBJ_DATA where
  id : Nat
  item_types : List String
deriving Repr, DecidableEq

/-- Modelled from the spec: `objIsType(obj, type)` from the item subsystem
tests whether the object belongs to the given equipment class. -/
def objIsType (o : OBJ_DATA) (t : String) : Bool :=
  o.item_types.contains t

/-- One named slot on a body (`struct bodypart_data`): a name, a position
type, a relative weight (`size`), and the ordered list of occupying items. -/
structure BODYPART where
  name : String
  type : String
  size : Int
  equipment : List OBJ_DATA
deriving Repr, DecidableEq

/-- The body (`struct body_data`): an ordered list of parts plus a size
classification.  `newBody` in C leaves `size` uninitialized; callers set it
via `bodySetSize`. -/
structure BODY_DATA where
  parts : List BODYPART
  size : Int
deriving Repr, DecidableEq

/-- Create a new bodypart (`newBodypart`): the weight is clamped with
`MAX(0, size)` — "parts of size 0 cannot be hit". -/
def newBodypart (name type : String) (size : Int) : BODYPART :=
  { name := name, type := type, size := max 0 size, equipment := [] }

/-- Copy a bodypart (`bodypartCopy`): same name, type and size, but a fresh,
empty equipment list. -/
def bodypartCopy (P : BODYPART) : BODYPART :=
  { name := P.name, type := P.type, size := P.size, equipment := [] }

/-- Create a new, empty body (`newBody`).  The C code leaves `size`
uninitialized; we pick 0, and no claim depends on a fresh body's size. -/
def newBody : BODY_DATA :=
  { parts := [], size := 0 }

/-- Copy a body (`bodyCopy`): every part is copied with `bodypartCopy` and the
size classification is carried over. -/
def bodyCopy (B : BODY_DATA) : BODY_DATA :=
  { parts := B.parts.map bodypartCopy, size := B.size }

/-- Replace the element at index `i` by `f` applied to it; out-of-range
indices leave the list unchanged.  This models in-place mutation through a
`BODYPART *` pointer obtained from the body's list. -/
def listModify : List α → Nat → (α → α) → List α
  | [], _, _ => []
  | x :: xs, 0, f => f x :: xs
  | x :: xs, n + 1, f => x :: listModify xs n f

/-- Index of the first element satisfying `pred`, in list order.  Both
`findBodypart` and `findFreeBodypart` iterate the part list and break on the
first match; we return the index to model the returned pointer. -/
def firstIdxWhere (pred : α → Bool) : List α → Option Nat
  | [] => none
  | x :: xs => if pred x then some 0 else (firstIdxWhere pred xs).map (· + 1)

/-- Find a bodypart with the given name (`findBodypart`), case-insensitively;
the result is the index of the first match. -/
def findBodypartIdx (parts : List BODYPART) (pos : String) : Option Nat :=
  firstIdxWhere (fun p => strcaseEq p.name pos) parts

/-- Find the first part of the given type that has no equipment on it
(`findFreeBodypart`). -/
def findFreeBodypartIdx (parts : List BODYPART) (type : String) : Option Nat :=
  firstIdxWhere (fun p => strcaseEq p.type type && p.equipment.isEmpty) parts

/-- Add or upsert a position (`bodyAddPosition`): if a part with the name
already exists (case-insensitively) its type and size are overwritten in
place — note the size is stored unclamped on this path — otherwise a new
part is appended (`listPut`). -/
def bodyAddPosition (B : BODY_DATA) (pos type : String) (size : Int) : BODY_DATA :=
  match findBodypartIdx B.parts pos with
  | some i =>
      { B with parts := listModify B.parts i (fun p => { p with type := type, size := size }) }
  | none => { B with parts := B.parts ++ [newBodypart pos type size] }

/-- Remove a named position (`bodyRemovePosition`); returns whether a part was
found and removed, paired with the resulting body. -/
def bodyRemovePosition (B : BODY_DATA) (pos : String) : Bool × BODY_DATA :=
  match findBodypartIdx B.parts pos with
  | some i => (true, { B with parts := B.parts.eraseIdx i })
  | none => (false, B)

/-- One call against the body CRUD interface, used to talk about arbitrary
sequences of `add_or_update_position` / `remove_position` calls. -/
inductive BodyOp where
  | add (pos type : String) (size : Int)
  | remove (pos : String)
deriving Repr, DecidableEq

/-- Apply a single CRUD call. -/
def applyOp (B : BODY_DATA) : BodyOp → BODY_DATA
  | .add pos type size => bodyAddPosition B pos type size
  | .remove pos => (bodyRemovePosition B pos).2

/-- Apply a sequence of CRUD calls in order. -/
def applyOps (B : BODY_DATA) (ops : List BodyOp) : BODY_DATA :=
  ops.foldl applyOp B

/-- Within one body, part names are pairwise distinct up to case. -/
def namesUnique (B : BODY_DATA) : Prop :=
  (B.parts.map (·.name)).Pairwise (fun a b => strcaseEq a b = false)

/-- Modelled from the spec: `is_keyword(keywords, word, FALSE)` lives in the
utility module, which is not among the sources.  Per the spec the filter is a
comma-separated keyword list matched case-insensitively, and "an empty or
null filter means consider all parts"; we take the already-split keyword list
and let the empty list match every word. -/
def is_keyword (keywords : List String) (word : String) : Bool :=
  keywords.isEmpty || keywords.any (fun k => strcaseEq k word)

/-- Sum of the weights of all parts of a body, as accumulated by the
`body_size` double in `bodyPartRatio`.  The C code sums `int` weights in a
`double`; the sums are modelled exactly. -/
def totalWeight (B : BODY_DATA) : Int :=
  (B.parts.map (·.size)).sum

/-- Sum of the weights of the parts whose name matches the keyword filter,
the `part_size` accumulator of `bodyPartRatio`. -/
def matchWeight (B : BODY_DATA) (pos : List String) : Int :=
  ((B.parts.filter (fun p => is_keyword pos p.name)).map (·.size)).sum

/-- Mass-ratio computation (`bodyPartRatio`): the weight of the matching
parts over the weight of the whole body, and exactly 0 when the body's total
weight is zero ("to prevent div0").  C computes in `double`; we compute the
same quantity in exact rational arithmetic. -/
def bodyPartRatio (B : BODY_DATA) (pos : List String) : ℚ :=
  if totalWeight B = 0 then 0 else (matchWeight B pos : ℚ) / (totalWeight B : ℚ)

/-- Does this part survive the keyword filter of `bodyRandPart`?  The C loop
skips a part iff a filter was supplied (`pos && *pos`) and the part's name is
not one of its keywords. -/
def isCandidate (filter : List String) (p : BODYPART) : Bool :=
  filter.isEmpty || is_keyword filter p.name

/-- The `size_sum` accumulated over the candidate parts by `bodyRandPart`. -/
def candSum (parts : List BODYPART) (filter : List String) : Int :=
  ((parts.filter (isCandidate filter)).map (·.size)).sum

/-- The `size_sum` restricted to the first `n` parts; used to state where the
roll lands. -/
def candSumTake (parts : List BODYPART) (filter : List String) (n : Nat) : Int :=
  candSum (parts.take n) filter

/-- The second loop of `bodyRandPart`: walk the candidate parts in body
order, subtracting each part's weight from the roll, and return the name of
the part at which the running roll becomes ≤ 0. -/
def randWalk (parts : List BODYPART) (filter : List String) (roll : Int) : Option String :=
  match parts with
  | [] => none
  | p :: rest =>
      if !isCandidate filter p then randWalk rest filter roll
      else if roll - p.size ≤ 0 then some p.name
      else randWalk rest filter (roll - p.size)

/-- Weighted random part selection (`bodyRandPart`).  The uniform roll
`rand_number(1, size_sum)` comes from the utility module, which is not among
the sources; the roll is therefore passed in as a parameter, constrained by
the claims to lie in `[1, size_sum]`.  When the candidate weight sum is ≤ 1
the function returns the "no part found" sentinel (`NULL`) before rolling. -/
def bodyRandPart (B : BODY_DATA) (filter : List String) (roll : Int) : Option String :=
  if candSum B.parts filter ≤ 1 then none
  else randWalk B.parts filter roll

/-- Append one object to the equipment of the part at index `i`, modelling
`listPut(part->equipment, obj)` through a part pointer. -/
def equipAt (B : BODY_DATA) (i : Nat) (obj : OBJ_DATA) : BODY_DATA :=
  { B with parts := listModify B.parts i (fun p => { p with equipment := p.equipment ++ [obj] }) }

/-- Remove the first occurrence of `obj` from the equipment of the part at
index `i`, modelling `listRemove(part->equipment, obj)`. -/
def unequipAt (B : BODY_DATA) (i : Nat) (obj : OBJ_DATA) : BODY_DATA :=
  { B with parts := listModify B.parts i (fun p => { p with equipment := p.equipment.erase obj }) }

/-- Is the part at index `i` free of equipment?  This is the redundant
re-check `listSize(part->equipment) == 0` that `bodyEquipPostypes` performs
on the part returned by `findFreeBodypart`. -/
def partFreeAt (B : BODY_DATA) (i : Nat) : Bool :=
  match B.parts.get? i with
  | some p => p.equipment.isEmpty
  | none => false

/-- The staging loop of `bodyEquipPostypes`: for each requested type, find
the first free part of that type and equip it immediately ("equip them as we
go along, in case we want more than one of a piece"), collecting the staged
parts.  The state is the partially equipped body plus the staged indices. -/
def stagePostypes (s : BODY_DATA × List Nat) (types : List String) (obj : OBJ_DATA) :
    BODY_DATA × List Nat :=
  match types with
  | [] => s
  | ty :: rest =>
      match findFreeBodypartIdx s.1.parts ty with
      | some i =>
          if partFreeAt s.1 i then
            stagePostypes (equipAt s.1 i obj, s.2 ++ [i]) rest obj
          else stagePostypes s rest obj
      | none => stagePostypes s rest obj

/-- The rollback loop of `bodyEquipPostypes`: "remove equipment for every
part we put it on". -/
def rollbackParts (B : BODY_DATA) (idxs : List Nat) (obj : OBJ_DATA) : BODY_DATA :=
  idxs.foldl (fun b i => unequipAt b i obj) B

/-- Equip by position types (`bodyEquipPostypes`).  The comma-separated type
string is taken already split by `parse_keywords` (utility module, not among
the sources).  Returns the success flag together with the resulting body. -/
def bodyEquipPostypes (B : BODY_DATA) (obj : OBJ_DATA) (pos_list : List String) :
    Bool × BODY_DATA :=
  if pos_list.length = 0 then (false, B)
  else
    let st := stagePostypes (B, []) pos_list obj
    if pos_list.length ≠ st.2.length then (false, rollbackParts st.1 st.2 obj)
    else (true, st.1)

/-- The staging loop of `bodyEquipPosnames`: a requested name is staged iff
the named part exists, currently has no equipment, and was not already staged
by an earlier name of the same call (`!listIn(parts, part)`). -/
def stagePosnames (B : BODY_DATA) (pos_list : List String) : List Nat :=
  pos_list.foldl (fun acc pos =>
    match findBodypartIdx B.parts pos with
    | some i => if partFreeAt B i && !(acc.contains i) then acc ++ [i] else acc
    | none => acc) []

/-- The commit loop shared by `bodyEquipPosnames` and `bodyEquipPosnamesEx`:
"fill in all of the parts that need to be filled".  Note that the C code runs
this loop whether or not `success` was set to `FALSE`. -/
def commitParts (B : BODY_DATA) (idxs : List Nat) (obj : OBJ_DATA) : BODY_DATA :=
  idxs.foldl (fun b i => equipAt b i obj) B

/-- Equip by exact position names (`bodyEquipPosnames`).  The success flag is
cleared when the staged-part count differs from the requested count (or is
zero), but the staged parts are committed regardless. -/
def bodyEquipPosnames (B : BODY_DATA) (obj : OBJ_DATA) (pos_list : List String) :
    Bool × BODY_DATA :=
  if pos_list.length = 0 then (false, B)
  else
    let parts := stagePosnames B pos_list
    ((parts.length == pos_list.length) && !(parts.length == 0), commitParts B parts obj)

/-- The eligibility decision of `bodyEquipPosnamesEx` for a found, not yet
staged part: force mode always allows; an empty slot always allows; an
occupied slot allows iff either no equipment class was supplied (legacy
layering) or none of the current occupants belongs to the supplied class. -/
def canEquipPart (p : BODYPART) (equipment_type : Option String) (force : Bool) : Bool :=
  if force then true
  else if p.equipment.isEmpty then true
  else
    match equipment_type with
    | some t => !(p.equipment.any (fun o => objIsType o t))
    | none => true

/-- The staging loop of `bodyEquipPosnamesEx`. -/
def stagePosnamesEx (B : BODY_DATA) (pos_list : List String)
    (equipment_type : Option String) (force : Bool) : List Nat :=
  pos_list.foldl (fun acc pos =>
    match findBodypartIdx B.parts pos with
    | some i =>
        if acc.contains i then acc
        else
          match B.parts.get? i with
          | some p => if canEquipPart p equipment_type force then acc ++ [i] else acc
          | none => acc
    | none => acc) []

/-- Equip by exact position names with layering (`bodyEquipPosnamesEx`).
Like `bodyEquipPosnames`, the staged parts are committed whether or not the
success flag was cleared. -/
def bodyEquipPosnamesEx (B : BODY_DATA) (obj : OBJ_DATA) (pos_list : List String)
    (equipment_type : Option String) (force : Bool) : Bool × BODY_DATA :=
  if pos_list.length = 0 then (false, B)
  else
    let parts := stagePosnamesEx B pos_list equipment_type force
    ((parts.length == pos_list.length) && !(parts.length == 0), commitParts B parts obj)

/-- A race entry (`struct race_data`). -/
structure RACE_DATA where
  name : String
  abbrevName : String
  body : BODY_DATA
  pc_ok : Bool
deriving Repr, DecidableEq

/-- Create a race entry (`newRace`): the supplied body is deep-copied with
`bodyCopy`, so the caller's body is not aliased.  The C field `abbrev` is a
Lean keyword and is rendered `abbrevName`. -/
def newRace (name abbrevName : String) (body : BODY_DATA) (pc_ok : Bool) : RACE_DATA :=
  { name := name, abbrevName := abbrevName, body := bodyCopy body, pc_ok := pc_ok }

/-- Modelled from the spec: the generic hashtable container (`hashPut` /
`hashGet`) is not among the sources; the race table is modelled as an
association list where the most recent `hashPut` for a key shadows older
entries. -/
def hashGet (table : List (String × RACE_DATA)) (key : String) : Option RACE_DATA :=
  match table with
  | [] => none
  | (k, v) :: rest => if k == key then some v else hashGet rest key

/-- Modelled from the spec: store a value for a key in the race table. -/
def hashPut (table : List (String × RACE_DATA)) (key : String) (v : RACE_DATA) :
    List (String × RACE_DATA) :=
  (key, v) :: table

/-- Register a race (`add_race`): stores a `newRace` entry — hence a deep
copy of the supplied body — under the race name. -/
def add_race (table : List (String × RACE_DATA)) (name abbrevName : String)
    (body : BODY_DATA) (pc_ok : Bool) : List (String × RACE_DATA) :=
  hashPut table name (newRace name abbrevName body pc_ok)

/-- Create a body for a race (`raceCreateBody`): a fresh deep copy of the
race's template body, or the `NULL` sentinel if the race is unknown. -/
def raceCreateBody (table : List (String × RACE_DATA)) (name : String) :
    Option BODY_DATA :=
  (hashGet table name).map (fun d => bodyCopy d.body)

/-- The character fields the body-reset path touches (`struct char_data`):
the persisted race name and the possibly absent body (`ch->body` may be
`NULL`). -/
structure CHAR_DATA where
  race : String
  body : Option BODY_DATA
deriving Repr, DecidableEq

/-- Install a body on a character (`charSetBody`): the old body is deleted
unconditionally and the supplied value — possibly the `NULL` sentinel — is
stored. -/
def charSetBody (ch : CHAR_DATA) (body : Option BODY_DATA) : CHAR_DATA :=
  { ch with body := body }

/-- Reset a character's body to its race default (`charResetBody`). -/
def charResetBody (table : List (String × RACE_DATA)) (ch : CHAR_DATA) : CHAR_DATA :=
  charSetBody ch (raceCreateBody table ch.race)

/-- Concrete item of class "armor", for the worked examples. -/
def objA : OBJ_DATA := { id := 1, item_types := ["armor"] }

/-- Concrete item of class "cloak", a different class from `objA`. -/
def objB : OBJ_DATA := { id := 2, item_types := ["cloak"] }

/-- Concrete item of the same class "armor" as `objA`. -/
def objC : OBJ_DATA := { id := 3, item_types := ["armor"] }

/-- A free left hand. -/
def partLH : BODYPART := { name := "left hand", type := "left hand", size := 2, equipment := [] }

/-- A right hand already occupied by `objA`. -/
def partRH : BODYPART := { name := "right hand", type := "right hand", size := 2, equipment := [objA] }

/-- A two-handed test body whose right hand is already occupied. -/
def bodyLR : BODY_DATA := { parts := [partLH, partRH], size := 3 }

/-- A single slot already holding the armor item `objA`, for the layering
examples. -/
def partSlot : BODYPART := { name := "slot", type := "torso", size := 5, equipment := [objA] }

/-- A one-slot test body for the layering examples. -/
def bodySlot : BODY_DATA := { parts := [partSlot], size := 3 }

/-- A finger already occupied by `objA`. -/
def partF1 : BODYPART := { name := "left ring finger", type := "finger", size := 1, equipment := [objA] }

/-- A free finger. -/
def partF2 : BODYPART := { name := "right ring finger", type := "finger", size := 1, equipment := [] }

/-- A test body with one occupied and one free finger. -/
def bodyFingers : BODY_DATA := { parts := [partF1, partF2], size := 3 }

/-- A small template body in the spirit of the human template of
`init_races`: torso 50, two arms of 7, two hands of 2. -/
def bodyTemplate : BODY_DATA :=
  bodyAddPosition (bodyAddPosition (bodyAddPosition (bodyAddPosition (bodyAddPosition
    newBody "torso" "torso" 50) "left arm" "arm" 7) "right arm" "arm" 7)
    "left hand" "left hand" 2) "right hand" "right hand" 2

/-- A race table holding only the race "human" with `bodyTemplate`. -/
def raceTable : List (String × RACE_DATA) :=
  add_race [] "human" "hum" bodyTemplate false

/-- The weight argument of a CRUD call is non-negative. -/
def opWeightNonneg : BodyOp → Prop
  | .add _ _ size => 0 ≤ size
  | .remove _ => True

instance : DecidablePred opWeightNonneg := fun op =>
  match op with
  | .add _ _ size => inferInstanceAs (Decidable (0 ≤ size))
  | .remove _ => inferInstanceAs (Decidable True)

/-- The part at index `i` exists, has the given type (case-insensitively)
and is free of equipment — a slot `findFreeBodypart` may return. -/
def partTypeFree (B : BODY_DATA) (ty : String) (i : Nat) : Prop :=
  ∃ p, B.parts.get? i = some p ∧ strcaseEq p.type ty = true ∧ p.equipment = []

/-- Index `i` is the first free part of type `ty` in body order among the
parts not yet staged (`taken`): the slot the staged allocation of
`bodyEquipPostypes` picks for one requested type. -/
def LeastFresh (B : BODY_DATA) (ty : String) (taken : List Nat) (i : Nat) : Prop :=
  partTypeFree B ty i ∧ i ∉ taken ∧ ∀ j < i, partTypeFree B ty j → j ∈ taken

/-- Invariant of the staging loop of `bodyEquipPostypes`: `B'` is the
original body `B` with the object placed on exactly the staged indices
`idxs`, each of which was previously free, and the staged indices are
pairwise distinct. -/
def StagedOK (B : BODY_DATA) (obj : OBJ_DATA) (B' : BODY_DATA) (idxs : List Nat) : Prop :=
  B'.size = B.size ∧
  B'.parts.length = B.parts.length ∧
  idxs.Nodup ∧
  (∀ i ∈ idxs, ∃ p, B.parts.get? i = some p ∧ p.equipment = [] ∧
     B'.parts.get? i = some { p with equipment := [obj] }) ∧
  (∀ i, i ∉ idxs → B'.parts.get? i = B.parts.get? i)

/-! Basic facts about the helpers. -/

theorem strcaseEq_refl (a : String) : strcaseEq a a = true := by
  simp [strcaseEq]

theorem strcaseEq_symm (a b : String) : strcaseEq a b = strcaseEq b a := by
  simp [strcaseEq, eq_comm]

theorem strcaseEq_trans {a b c : String} (h₁ : strcaseEq a b = true)
    (h₂ : strcaseEq b c = true) : strcaseEq a c = true := by
  simp only [strcaseEq, beq_iff_eq] at *
  exact h₁.trans h₂

theorem length_listModify (l : List α) (i : Nat) (f : α → α) :
    (listModify l i f).length = l.length := by
  induction l generalizing i with
  | nil => rfl
  | cons x xs ih =>
    cases i with
    | zero => rfl
    | succ n => simp [listModify, ih]

theorem get?_listModify_self (l : List α) (i : Nat) (f : α → α) :
    (listModify l i f).get? i = (l.get? i).map f := by
  induction l generalizing i with
  | nil => cases i <;> rfl
  | cons x xs ih =>
    cases i with
    | zero => rfl
    | succ n => simpa [listModify] using ih n

theorem get?_listModify_ne (l : List α) {i j : Nat} (f : α → α) (h : j ≠ i) :
    (listModify l i f).get? j = l.get? j := by
  induction l generalizing i j with
  | nil => cases i <;> rfl
  | cons x xs ih =>
    cases i with
    | zero =>
      cases j with
      | zero => exact absurd rfl h
      | succ m => rfl
    | succ n =>
      cases j with
      | zero => rfl
      | succ m =>
        simp only [listModify, List.get?]
        exact ih (fun hc => h (by omega))

theorem mem_listModify {l : List α} {i : Nat} {f : α → α} {q : α}
    (h : q ∈ listModify l i f) : q ∈ l ∨ ∃ x ∈ l, q = f x := by
  induction l generalizing i with
  | nil => simp [listModify] at h
  | cons x xs ih =>
    cases i with
    | zero =>
      rcases List.mem_cons.mp h with h | h
      · exact Or.inr ⟨x, List.mem_cons_self x xs, h⟩
      · exact Or.inl (List.mem_cons_of_mem x h)
    | succ n =>
      rcases List.mem_cons.mp h with h | h
      · exact Or.inl (h ▸ List.mem_cons_self x xs)
      · rcases ih h with h | ⟨y, hy, hq⟩
        · exact Or.inl (List.mem_cons_of_mem x h)
        · exact Or.inr ⟨y, List.mem_cons_of_mem x hy, hq⟩

theorem firstIdxWhere_eq_none {pred : α → Bool} {l : List α} :
    firstIdxWhere pred l = none ↔ ∀ x ∈ l, pred x = false := by
  induction l with
  | nil => simp [firstIdxWhere]
  | cons x xs ih =>
    simp only [firstIdxWhere]
    by_cases hx : pred x
    · rw [if_pos hx]
      constructor
      · intro h; cases h
      · intro h
        have hfx := h x (List.mem_cons_self x xs)
        rw [hx] at hfx; cases hfx
    · rw [if_neg hx]
      cases hfi : firstIdxWhere pred xs with
      | some k =>
        constructor
        · intro h; simp at h
        · intro h
          exfalso
          have hall : ∀ y ∈ xs, pred y = false :=
            fun y hy => h y (List.mem_cons_of_mem x hy)
          rw [ih.mpr hall] at hfi
          cases hfi
      | none =>
        constructor
        · intro _ y hy
          rcases List.mem_cons.mp hy with rfl | hm
          · exact Bool.eq_false_iff.mpr hx
          · exact ih.mp hfi y hm
        · intro _; rfl

theorem firstIdxWhere_eq_some {pred : α → Bool} {l : List α} {i : Nat}
    (h : firstIdxWhere pred l = some i) :
    ∃ x, l.get? i = some x ∧ pred x = true ∧
      ∀ j, j < i → ∀ y, l.get? j = some y → pred y = false := by
  induction l generalizing i with
  | nil => simp [firstIdxWhere] at h
  | cons x xs ih =>
    simp only [firstIdxWhere] at h
    by_cases hx : pred x
    · rw [if_pos hx] at h
      cases h
      exact ⟨x, rfl, hx, fun j hj => by omega⟩
    · rw [if_neg hx] at h
      cases hfi : firstIdxWhere pred xs with
      | none => rw [hfi] at h; cases h
      | some k =>
        rw [hfi] at h
        simp only [Option.map_some'] at h
        cases h
        obtain ⟨y, hy, hpy, hmin⟩ := ih hfi
        refine ⟨y, hy, hpy, ?_⟩
        intro j hj z hz
        cases j with
        | zero =>
          cases hz
          exact Bool.eq_false_iff.mpr hx
        | succ m => exact hmin m (by omega) z hz

/-- C9: `bodyCopy` preserves, in order, every part's name, type and weight
and the body's size classification, while every part of the copy has an
empty occupant list even when the source part had occupants. -/
theorem C9_body_copy_roundtrip (B : BODY_DATA) :
    (bodyCopy B).size = B.size ∧
    (bodyCopy B).parts.length = B.parts.length ∧
    (∀ i p, B.parts.get? i = some p →
      (bodyCopy B).parts.get? i =
        some { name := p.name, type := p.type, size := p.size, equipment := [] }) ∧
    ∀ q ∈ (bodyCopy B).parts, q.equipment = [] := by
  refine ⟨rfl, by simp [bodyCopy], ?_, ?_⟩
  · intro i p hp
    rw [List.get?_eq_getElem?] at hp ⊢
    simp [bodyCopy, List.getElem?_map, hp, bodypartCopy]
  · intro q hq
    simp only [bodyCopy, List.mem_map] at hq
    obtain ⟨p, _, rfl⟩ := hq
    rfl

/-- C9 witness: evaluate the round-trip facts on the one-slot body whose
part holds an occupant. -/
theorem C9_body_copy_roundtrip_witness :
    (bodyCopy bodySlot).size = bodySlot.size ∧
    (bodyCopy bodySlot).parts.get? 0 =
      some { name := "slot", type := "torso", size := 5, equipment := [] } := by
  refine ⟨(C9_body_copy_roundtrip bodySlot).1, ?_⟩
  exact (C9_body_copy_roundtrip bodySlot).2.2.1 0 partSlot rfl

/-- C10: when the character's race is not in the race table, `charResetBody`
installs the `none` sentinel returned by `raceCreateBody`, leaving the
character bodiless — whatever body it had before is discarded, not kept. -/
theorem C10_reset_unknown_race (table : List (String × RACE_DATA)) (ch : CHAR_DATA)
    (h : hashGet table ch.race = none) :
    (charResetBody table ch).body = none := by
  simp [charResetBody, charSetBody, raceCreateBody, h]

/-- C10 witness: a character with a body and the unregistered race "elf"
ends up bodiless after the reset. -/
theorem C10_reset_unknown_race_witness :
    (charResetBody raceTable { race := "elf", body := some bodyLR }).body = none :=
  C10_reset_unknown_race raceTable { race := "elf", body := some bodyLR } rfl

theorem bodyCopy_parts_get? (B : BODY_DATA) (i : Nat) (p : BODYPART)
    (hp : B.parts.get? i = some p) :
    (bodyCopy B).parts.get? i =
      some { name := p.name, type := p.type, size := p.size, equipment := [] } := by
  rw [List.get?_eq_getElem?] at hp ⊢
  simp [bodyCopy, List.getElem?_map, hp, bodypartCopy]

theorem bodyCopy_equipment_empty (B : BODY_DATA) :
    ∀ q ∈ (bodyCopy B).parts, q.equipment = [] := by
  intro q hq
  simp only [bodyCopy, List.mem_map] at hq
  obtain ⟨p, _, rfl⟩ := hq
  rfl

theorem bodyCopy_length (B : BODY_DATA) :
    (bodyCopy B).parts.length = B.parts.length := by
  simp [bodyCopy]

/-- C8: registering a race stores a deep copy of the supplied body;
`raceCreateBody` yields a fresh copy of the template carrying the template's
part names, types and weights with empty occupant lists, or the `none`
sentinel for an unknown race; and a body created for one creature shows no
occupants no matter what is equipped on another creature's body from the
same race. -/
theorem C8_race_template_isolation (table : List (String × RACE_DATA))
    (name ab : String) (tb : BODY_DATA) (pc : Bool) (r : String)
    (obj : OBJ_DATA) (poss : List String) :
    ((raceCreateBody (add_race table name ab tb pc) name).isSome = true) ∧
    (∀ b, raceCreateBody (add_race table name ab tb pc) name = some b →
       b.parts.length = tb.parts.length ∧ b.size = tb.size ∧
       (∀ i p, tb.parts.get? i = some p →
         b.parts.get? i =
           some { name := p.name, type := p.type, size := p.size, equipment := [] }) ∧
       ∀ q ∈ b.parts, q.equipment = []) ∧
    (hashGet table r = none → raceCreateBody table r = none) ∧
    (∀ b1 b2 s1, raceCreateBody (add_race table name ab tb pc) name = some b1 →
       raceCreateBody (add_race table name ab tb pc) name = some b2 →
       bodyEquipPosnames b1 obj poss = s1 →
       ∀ q ∈ b2.parts, q.equipment = []) := by
  have hget : raceCreateBody (add_race table name ab tb pc) name =
      some (bodyCopy (bodyCopy tb)) := by
    simp [raceCreateBody, add_race, hashPut, hashGet, newRace]
  refine ⟨by rw [hget]; rfl, ?_, ?_, ?_⟩
  · intro b hb
    rw [hget] at hb
    cases hb
    refine ⟨by simp [bodyCopy_length], rfl, ?_, bodyCopy_equipment_empty _⟩
    intro i p hp
    have h1 := bodyCopy_parts_get? tb i p hp
    exact bodyCopy_parts_get? (bodyCopy tb) i
      { name := p.name, type := p.type, size := p.size, equipment := [] } h1
  · intro hnone
    simp [raceCreateBody, hnone]
  · intro b1 b2 s1 hb1 hb2 hs1
    rw [hget] at hb2
    cases hb2
    exact bodyCopy_equipment_empty _

/-- C8 witness: create two bodies for the registered race "human", equip an
item on the first; the second still shows no occupant on any part, and its
torso matches the template. -/
theorem C8_race_template_isolation_witness :
    (raceCreateBody raceTable "human").isSome = true ∧
    (∀ b, raceCreateBody raceTable "human" = some b → ∀ q ∈ b.parts, q.equipment = []) := by
  have h := C8_race_template_isolation [] "human" "hum" bodyTemplate false "human"
    objA ["left hand", "right hand"]
  refine ⟨h.1, ?_⟩
  intro b hb
  exact (h.2.1 b hb).2.2.2

/-- C5: `bodyPartRatio` is the matching weight over the total weight, exactly
0 on a zero-total-weight body; an empty filter on a body of positive total
weight gives ratio 1, and a filter matching no part gives ratio 0. -/
theorem C5_mass_ratio (B : BODY_DATA) (pos : List String) :
    (totalWeight B = 0 → bodyPartRatio B pos = 0) ∧
    (totalWeight B ≠ 0 →
      bodyPartRatio B pos * (totalWeight B : ℚ) = (matchWeight B pos : ℚ)) ∧
    (pos = [] → 0 < totalWeight B → bodyPartRatio B pos = 1) ∧
    ((∀ p ∈ B.parts, is_keyword pos p.name = false) → bodyPartRatio B pos = 0) := by
  refine ⟨?_, ?_, ?_, ?_⟩
  · intro h
    simp [bodyPartRatio, h]
  · intro h
    have hc : (totalWeight B : ℚ) ≠ 0 := Int.cast_ne_zero.mpr h
    simp [bodyPartRatio, h, div_mul_cancel₀ _ hc]
  · rintro rfl hpos
    have hmatch : matchWeight B [] = totalWeight B := by
      simp [matchWeight, totalWeight, is_keyword]
    have hne : totalWeight B ≠ 0 := ne_of_gt hpos
    have hc : (totalWeight B : ℚ) ≠ 0 := by exact_mod_cast hne
    rw [bodyPartRatio, if_neg hne, hmatch]
    exact div_self hc
  · intro h
    have hfil : B.parts.filter (fun p => is_keyword pos p.name) = [] := by
      rw [List.filter_eq_nil_iff]
      intro a ha
      simp [h a ha]
    have hmatch : matchWeight B pos = 0 := by simp [matchWeight, hfil]
    by_cases ht : totalWeight B = 0
    · simp [bodyPartRatio, ht]
    · simp [bodyPartRatio, ht, hmatch]

/-- C5 witness: on the human-style template (total weight 68) the empty
filter yields ratio 1; on the empty body (total weight 0) it yields 0; on a
filter matching nothing it yields 0. -/
theorem C5_mass_ratio_witness :
    bodyPartRatio bodyTemplate [] = 1 ∧
    bodyPartRatio newBody [] = 0 ∧
    bodyPartRatio bodyTemplate ["tail"] = 0 := by
  refine ⟨(C5_mass_ratio bodyTemplate []).2.2.1 rfl (by decide), ?_, ?_⟩
  · exact (C5_mass_ratio newBody []).1 (by decide)
  · exact (C5_mass_ratio bodyTemplate ["tail"]).2.2.2 (by decide)

/-- C6 counterexample: updating the existing position "head" with weight
argument −5 stores the weight unclamped, so the body ends with a part of
negative weight, refuting the claim that weights stay ≥ 0 under every
`add_or_update_position` sequence. -/
theorem C6_negative_weight_counterexample :
    ¬ ∀ p ∈ (applyOps newBody [.add "head" "head" 2, .add "head" "head" (-5)]).parts,
        0 ≤ p.size := by
  decide

theorem applyOp_weights_nonneg (B : BODY_DATA) (op : BodyOp)
    (hB : ∀ p ∈ B.parts, 0 ≤ p.size) (hop : opWeightNonneg op) :
    ∀ p ∈ (applyOp B op).parts, 0 ≤ p.size := by
  intro p hp
  cases op with
  | add pos type size =>
    simp only [applyOp, bodyAddPosition] at hp
    cases hfind : findBodypartIdx B.parts pos with
    | some i =>
      rw [hfind] at hp
      simp only at hp
      rcases mem_listModify hp with h | ⟨x, _, rfl⟩
      · exact hB p h
      · exact hop
    | none =>
      rw [hfind] at hp
      simp only at hp
      rcases List.mem_append.mp hp with h | h
      · exact hB p h
      · rw [List.mem_singleton.mp h]
        exact le_max_left 0 size
  | remove pos =>
    simp only [applyOp, bodyRemovePosition] at hp
    cases hfind : findBodypartIdx B.parts pos with
    | some i =>
      rw [hfind] at hp
      simp only at hp
      exact hB p ((B.parts.eraseIdx_sublist i).subset hp)
    | none =>
      rw [hfind] at hp
      exact hB p hp

theorem applyOps_weights_nonneg (ops : List BodyOp) :
    ∀ B : BODY_DATA, (∀ p ∈ B.parts, 0 ≤ p.size) →
    (∀ op ∈ ops, opWeightNonneg op) →
    ∀ p ∈ (applyOps B ops).parts, 0 ≤ p.size := by
  induction ops with
  | nil => exact fun B hB _ => hB
  | cons op rest ih =>
    intro B hB hops
    exact ih (applyOp B op)
      (applyOp_weights_nonneg B op hB (hops op (List.mem_cons_self _ _)))
      (fun o ho => hops o (List.mem_cons_of_mem _ ho))

/-- C6 amended: weights are clamped to ≥ 0 on construction (`newBodypart`
applies `MAX(0, size)`), and any sequence of `add_or_update_position` /
`remove_position` calls whose weight arguments are all non-negative keeps
every part's weight ≥ 0; but the in-place update of an existing name stores
the weight argument unclamped, so a negative argument there can leave a
negative weight (see the counterexample). -/
theorem C6_weights_clamped_amended (B : BODY_DATA) (ops : List BodyOp)
    (hB : ∀ p ∈ B.parts, 0 ≤ p.size)
    (hops : ∀ op ∈ ops, opWeightNonneg op) :
    (∀ pos type size, 0 ≤ (newBodypart pos type size).size) ∧
    (∀ p ∈ (applyOps B ops).parts, 0 ≤ p.size) :=
  ⟨fun _ _ size => le_max_left 0 size, applyOps_weights_nonneg ops B hB hops⟩

/-- C6 witness: building a head of weight 2 from the empty body, and a part
constructed with a negative weight argument is clamped to 0. -/
theorem C6_weights_clamped_witness :
    (∀ p ∈ (applyOps newBody [.add "head" "head" 2]).parts, 0 ≤ p.size) ∧
    0 ≤ (newBodypart "tail" "tail" (-7)).size := by
  have h := C6_weights_clamped_amended newBody [.add "head" "head" 2]
    (by decide) (by decide)
  exact ⟨h.2, h.1 "tail" "tail" (-7)⟩

theorem map_listModify_eq {l : List α} {i : Nat} {f : α → α} (g : α → β)
    (hg : ∀ x, g (f x) = g x) : (listModify l i f).map g = l.map g := by
  induction l generalizing i with
  | nil => rfl
  | cons x xs ih =>
    cases i with
    | zero => simp [listModify, hg]
    | succ n => simp [listModify, ih]

theorem namesUnique_distinct {B : BODY_DATA} (h : namesUnique B) {i j : Nat}
    {p q : BODYPART} (hp : B.parts.get? i = some p) (hq : B.parts.get? j = some q)
    (hij : i ≠ j) : strcaseEq p.name q.name = false := by
  have hmap : ∀ k (r : BODYPART), B.parts.get? k = some r →
      (B.parts.map (·.name)).get? k = some r.name := by
    intro k r hr
    rw [List.get?_eq_getElem?] at hr ⊢
    simp [List.getElem?_map, hr]
  have hp' := hmap i p hp
  have hq' := hmap j q hq
  rw [List.get?_eq_some] at hp' hq'
  obtain ⟨hi, hpi⟩ := hp'
  obtain ⟨hj, hqj⟩ := hq'
  rw [namesUnique, List.pairwise_iff_get] at h
  rcases Nat.lt_or_ge i j with hlt | hge
  · have := h ⟨i, hi⟩ ⟨j, hj⟩ hlt
    rw [hpi, hqj] at this
    exact this
  · have hlt : j < i := by omega
    have := h ⟨j, hj⟩ ⟨i, hi⟩ hlt
    rw [hpi, hqj] at this
    rw [strcaseEq_symm]
    exact this

theorem namesUnique_addPosition (B : BODY_DATA) (pos type : String) (size : Int)
    (h : namesUnique B) : namesUnique (bodyAddPosition B pos type size) := by
  rw [bodyAddPosition]
  cases hfind : findBodypartIdx B.parts pos with
  | some i =>
    simp only [namesUnique]
    have hm := map_listModify_eq (l := B.parts) (i := i)
      (f := fun p => { p with type := type, size := size })
      (g := fun p : BODYPART => p.name) (fun x => rfl)
    rw [hm]
    exact h
  | none =>
    simp only [namesUnique, List.map_append, List.map_cons, List.map_nil]
    rw [List.pairwise_append]
    refine ⟨h, List.pairwise_singleton _ _, ?_⟩
    intro a ha b hb
    rw [List.mem_singleton] at hb
    subst hb
    rw [List.mem_map] at ha
    obtain ⟨p, hp, rfl⟩ := ha
    have hall := firstIdxWhere_eq_none.mp hfind
    exact hall p hp

theorem namesUnique_removePosition (B : BODY_DATA) (pos : String)
    (h : namesUnique B) : namesUnique (bodyRemovePosition B pos).2 := by
  rw [bodyRemovePosition]
  cases hfind : findBodypartIdx B.parts pos with
  | some i =>
    simp only [namesUnique]
    exact h.sublist (((B.parts.eraseIdx_sublist i)).map (·.name))
  | none => exact h

/-- C7: starting from the empty body, any sequence of add/update/remove calls
keeps part names unique up to case; and an add whose name already exists
case-insensitively updates that part's type and weight in place, leaving the
part count unchanged and exactly the found part — no other — matching the
name, carrying the latest type and weight. -/
theorem C7_upsert_uniqueness :
    (∀ ops : List BodyOp, namesUnique (applyOps newBody ops)) ∧
    (∀ B pos type size i, namesUnique B → findBodypartIdx B.parts pos = some i →
      (bodyAddPosition B pos type size).parts.length = B.parts.length ∧
      (∀ j q, (bodyAddPosition B pos type size).parts.get? j = some q →
        (strcaseEq q.name pos = true ↔ j = i)) ∧
      ∀ q, (bodyAddPosition B pos type size).parts.get? i = some q →
        q.type = type ∧ q.size = size) := by
  constructor
  · intro ops
    have hstep : ∀ (B : BODY_DATA), namesUnique B → ∀ op, namesUnique (applyOp B op) := by
      intro B hB op
      cases op with
      | add pos type size => exact namesUnique_addPosition B pos type size hB
      | remove pos => exact namesUnique_removePosition B pos hB
    have : ∀ (B : BODY_DATA), namesUnique B → namesUnique (applyOps B ops) := by
      induction ops with
      | nil => exact fun B hB => hB
      | cons op rest ih => exact fun B hB => ih (applyOp B op) (hstep B hB op)
    exact this newBody (List.Pairwise.nil)
  · intro B pos type size i hU hfind
    obtain ⟨p, hp, hpmatch, _⟩ := firstIdxWhere_eq_some hfind
    have hB' : (bodyAddPosition B pos type size).parts =
        listModify B.parts i (fun p => { p with type := type, size := size }) := by
      rw [bodyAddPosition, hfind]
    refine ⟨by rw [hB', length_listModify], ?_, ?_⟩
    · intro j q hq
      rw [hB'] at hq
      by_cases hji : j = i
      · subst hji
        rw [get?_listModify_self, hp] at hq
        simp only [Option.map_some'] at hq
        cases hq
        simpa using hpmatch
      · rw [get?_listModify_ne _ _ hji] at hq
        constructor
        · intro hmatch
          exfalso
          have hqp : strcaseEq q.name p.name = true := by
            have h1 : strcaseEq pos p.name = true := by
              rw [strcaseEq_symm]; exact hpmatch
            exact strcaseEq_trans hmatch h1
          have hdist := namesUnique_distinct hU hq hp hji
          rw [hdist] at hqp
          cases hqp
        · intro hji'
          exact absurd hji' hji
    · intro q hq
      rw [hB', get?_listModify_self, hp] at hq
      simp only [Option.map_some'] at hq
      cases hq
      exact ⟨rfl, rfl⟩

/-- C7 witness: two upserts under case-variant names keep names unique, and
the second add updates the existing "head" part in place. -/
theorem C7_upsert_uniqueness_witness :
    namesUnique (applyOps newBody [.add "head" "head" 2, .add "HEAD" "face" 3]) ∧
    (bodyAddPosition (applyOps newBody [.add "head" "head" 2]) "HEAD" "face" 3).parts.length
      = (applyOps newBody [.add "head" "head" 2]).parts.length := by
  refine ⟨C7_upsert_uniqueness.1 _, ?_⟩
  exact (C7_upsert_uniqueness.2 (applyOps newBody [.add "head" "head" 2]) "HEAD" "face" 3 0
    (by unfold namesUnique; decide) (by decide)).1

/-- C1: evaluation at the spec's own test case shows `bodyEquipPosnames` is
not transactional: requesting "left hand,right hand" when the right hand is
occupied returns failure, yet the staged left hand has received the item —
the commit loop of the C code runs even when `success` was cleared, so a
failing call does mutate occupant lists. -/
theorem C1_posnames_mutation_on_failure :
    (bodyEquipPosnames bodyLR objB ["left hand", "right hand"]).1 = false ∧
    ((bodyEquipPosnames bodyLR objB ["left hand", "right hand"]).2.parts.map (·.equipment))
      = [[objB], [objA]] := by
  decide

/-- C3: on an occupied part, `bodyEquipPosnamesEx` stages the part as
eligible iff `force` is set, or no equipment class was supplied (legacy
layering), or the supplied class matches none of the current occupants;
consequently a single-slot call succeeds iff the found part is eligible, a
different-class item layers over `objA` (both occupants present afterwards),
and a same-class item without force fails and changes nothing. -/
theorem C3_layering_eligibility :
    (∀ (p : BODYPART) (et : Option String) (force : Bool), p.equipment ≠ [] →
      (canEquipPart p et force = true ↔
        (force = true ∨ et = none ∨
          ∃ t, et = some t ∧ ∀ o ∈ p.equipment, objIsType o t = false))) ∧
    (∀ (B : BODY_DATA) (obj : OBJ_DATA) (pos : String) (et : Option String)
        (force : Bool) (i : Nat) (p : BODYPART),
      findBodypartIdx B.parts pos = some i → B.parts.get? i = some p →
      ((bodyEquipPosnamesEx B obj [pos] et force).1 = true ↔
        canEquipPart p et force = true)) ∧
    (bodyEquipPosnamesEx bodySlot objB ["slot"] (some "cloak") false =
      (true, { parts := [{ partSlot with equipment := [objA, objB] }], size := 3 })) ∧
    (bodyEquipPosnamesEx bodySlot objC ["slot"] (some "armor") false = (false, bodySlot)) := by
  refine ⟨?_, ?_, by decide, by decide⟩
  · intro p et force hne
    have hemp : p.equipment.isEmpty = false := by
      cases hq : p.equipment with
      | nil => exact absurd hq hne
      | cons o os => rfl
    unfold canEquipPart
    cases force with
    | true => simp
    | false =>
      rw [if_neg (by simp), hemp, if_neg (by simp)]
      cases et with
      | none => simp
      | some t =>
        simp only [Bool.not_eq_true', List.any_eq_false, Option.some.injEq]
        constructor
        · intro h
          refine Or.inr (Or.inr ⟨t, rfl, ?_⟩)
          intro o ho
          exact Bool.eq_false_iff.mpr (h o ho)
        · rintro (h | h | ⟨t', ht', hall⟩)
          · cases h
          · cases h
          · cases ht'
            intro o ho
            rw [hall o ho]
            simp
  · intro B obj pos et force i p hfind hget
    have hstage : stagePosnamesEx B [pos] et force =
        (if canEquipPart p et force then [i] else []) := by
      have hget' : B.parts[i]? = some p := by
        rw [← List.get?_eq_getElem?]; exact hget
      simp [stagePosnamesEx, hfind, hget']
    rw [bodyEquipPosnamesEx]
    rw [if_neg (by simp)]
    rw [hstage]
    by_cases hce : canEquipPart p et force = true
    · simp [hce]
    · rw [Bool.not_eq_true] at hce
      simp [hce]

/-- C3 witness: the cloak may layer over the armor on the occupied slot, and
the single-slot success of the same-class call is equivalent to the
eligibility test, instantiated on the concrete slot. -/
theorem C3_layering_eligibility_witness :
    canEquipPart partSlot (some "cloak") false = true ∧
    ((bodyEquipPosnamesEx bodySlot objC ["slot"] (some "armor") false).1 = true ↔
      canEquipPart partSlot (some "armor") false = true) := by
  constructor
  · rw [C3_layering_eligibility.1 partSlot (some "cloak") false (by decide)]
    exact Or.inr (Or.inr ⟨"cloak", rfl, by decide⟩)
  · exact C3_layering_eligibility.2.1 bodySlot objC "slot" (some "armor") false 0 partSlot
      (by decide) (by decide)

theorem candSum_cons (p : BODYPART) (rest : List BODYPART) (filter : List String) :
    candSum (p :: rest) filter =
      (if isCandidate filter p = true then p.size else 0) + candSum rest filter := by
  by_cases hc : isCandidate filter p = true
  · simp [candSum, List.filter_cons, hc]
  · simp [candSum, List.filter_cons, hc]

theorem candSumTake_zero (parts : List BODYPART) (filter : List String) :
    candSumTake parts filter 0 = 0 := by
  simp [candSumTake, candSum]

theorem candSumTake_succ_cons (p : BODYPART) (rest : List BODYPART)
    (filter : List String) (n : Nat) :
    candSumTake (p :: rest) filter (n + 1) =
      (if isCandidate filter p = true then p.size else 0) + candSumTake rest filter n := by
  simp only [candSumTake, List.take_succ_cons]
  exact candSum_cons p (rest.take n) filter

theorem randWalk_spec (filter : List String) (parts : List BODYPART) :
    ∀ roll : Int, 1 ≤ roll → roll ≤ candSum parts filter →
    ∃ i p, parts.get? i = some p ∧ isCandidate filter p = true ∧ 0 < p.size ∧
      randWalk parts filter roll = some p.name ∧
      candSumTake parts filter i < roll ∧ roll ≤ candSumTake parts filter (i + 1) := by
  induction parts with
  | nil =>
    intro roll h1 h2
    simp [candSum] at h2
    omega
  | cons p rest ih =>
    intro roll h1 h2
    rw [candSum_cons] at h2
    by_cases hc : isCandidate filter p = true
    · rw [if_pos hc] at h2
      by_cases hsel : roll - p.size ≤ 0
      · refine ⟨0, p, rfl, hc, by omega, ?_, ?_, ?_⟩
        · simp [randWalk, hc, hsel]
        · rw [candSumTake_zero]; omega
        · rw [candSumTake_succ_cons, if_pos hc, candSumTake_zero]; omega
      · obtain ⟨i, q, hq, hqc, hqpos, hwalk, hlt, hle⟩ :=
          ih (roll - p.size) (by omega) (by omega)
        refine ⟨i + 1, q, by simpa using hq, hqc, hqpos, ?_, ?_, ?_⟩
        · simp only [randWalk, hc, Bool.not_true, Bool.false_eq_true, if_false,
            if_neg hsel]
          exact hwalk
        · rw [candSumTake_succ_cons, if_pos hc]; omega
        · rw [candSumTake_succ_cons, if_pos hc]; omega
    · rw [if_neg hc] at h2
      obtain ⟨i, q, hq, hqc, hqpos, hwalk, hlt, hle⟩ := ih roll h1 (by omega)
      refine ⟨i + 1, q, by simpa using hq, hqc, hqpos, ?_, ?_, ?_⟩
      · simp only [randWalk, hc]
        simpa using hwalk
      · rw [candSumTake_succ_cons, if_neg hc]; omega
      · rw [candSumTake_succ_cons, if_neg hc]; omega

/-- C4: `bodyRandPart` returns the "no part found" sentinel exactly when the
candidate weight sum is ≤ 1 (candidates being all parts for an empty filter,
and the name-matching parts otherwise); for a roll in `[1, sum]` it returns
the first candidate in body order at which the roll minus the running weight
total becomes ≤ 0 — the part whose cumulative weight interval contains the
roll — and that part always has weight > 0, so a weight-0 part is never
selected. -/
theorem C4_rand_part_selection (B : BODY_DATA) (filter : List String) (roll : Int) :
    (candSum B.parts filter ≤ 1 → bodyRandPart B filter roll = none) ∧
    (2 ≤ candSum B.parts filter → 1 ≤ roll → roll ≤ candSum B.parts filter →
      ∃ i p, B.parts.get? i = some p ∧ isCandidate filter p = true ∧ 0 < p.size ∧
        bodyRandPart B filter roll = some p.name ∧
        candSumTake B.parts filter i < roll ∧ roll ≤ candSumTake B.parts filter (i + 1)) := by
  constructor
  · intro h
    simp [bodyRandPart, h]
  · intro hsum h1 h2
    obtain ⟨i, p, hq, hqc, hqpos, hwalk, hlt, hle⟩ := randWalk_spec filter B.parts roll h1 h2
    have hgt : ¬ candSum B.parts filter ≤ 1 := by omega
    exact ⟨i, p, hq, hqc, hqpos, by simp [bodyRandPart, hgt, hwalk], hlt, hle⟩

/-- C4 witness: a fresh empty body has no hittable mass (sentinel), and on
the template body a roll of 52 lands on a positive-weight candidate. -/
theorem C4_rand_part_selection_witness :
    bodyRandPart newBody [] 1 = none ∧
    ∃ i p, bodyTemplate.parts.get? i = some p ∧ isCandidate [] p = true ∧ 0 < p.size ∧
      bodyRandPart bodyTemplate [] 52 = some p.name ∧
      candSumTake bodyTemplate.parts [] i < 52 ∧
      52 ≤ candSumTake bodyTemplate.parts [] (i + 1) := by
  constructor
  · exact (C4_rand_part_selection newBody [] 1).1 (by decide)
  · exact (C4_rand_part_selection bodyTemplate [] 52).2 (by decide) (by decide) (by decide)

theorem StagedOK_refl (B : BODY_DATA) (obj : OBJ_DATA) : StagedOK B obj B [] :=
  ⟨rfl, rfl, List.nodup_nil, by simp, fun _ _ => rfl⟩

theorem stage_step {B : BODY_DATA} {obj : OBJ_DATA} {B' : BODY_DATA} {idxs : List Nat}
    (hOK : StagedOK B obj B' idxs) {ty : String} {i : Nat}
    (hfind : findFreeBodypartIdx B'.parts ty = some i) :
    partFreeAt B' i = true ∧ LeastFresh B ty idxs i ∧
    StagedOK B obj (equipAt B' i obj) (idxs ++ [i]) := by
  obtain ⟨hsize, hlen, hnodup, hstaged, hframe⟩ := hOK
  obtain ⟨p', hp', hpred, hmin⟩ := firstIdxWhere_eq_some hfind
  rw [Bool.and_eq_true] at hpred
  obtain ⟨hty, hemp⟩ := hpred
  have hpe : p'.equipment = [] := List.isEmpty_iff.mp hemp
  have hfree : partFreeAt B' i = true := by
    rw [partFreeAt, hp']
    exact hemp
  have hnotin : i ∉ idxs := by
    intro hin
    obtain ⟨q, _, _, hq'⟩ := hstaged i hin
    rw [hp'] at hq'
    have : p'.equipment = [obj] := by
      cases hq'
      rfl
    rw [hpe] at this
    cases this
  have hBi : B.parts.get? i = some p' := by
    rw [← hframe i hnotin]
    exact hp'
  have hLF : LeastFresh B ty idxs i := by
    refine ⟨⟨p', hBi, hty, hpe⟩, hnotin, ?_⟩
    intro j hj hTF
    by_contra hnot
    obtain ⟨q, hq, hqty, hqe⟩ := hTF
    have hq' : B'.parts.get? j = some q := by
      rw [hframe j hnot]
      exact hq
    have hfalse := hmin j hj q hq'
    rw [hqty, hqe] at hfalse
    simp at hfalse
  refine ⟨hfree, hLF, hsize, ?_, ?_, ?_, ?_⟩
  · simp [equipAt, length_listModify, hlen]
  · simp [List.nodup_append, hnodup, hnotin]
  · intro j hj
    rcases List.mem_append.mp hj with hjin | hjone
    · obtain ⟨q, hqB, hqe, hq'⟩ := hstaged j hjin
      have hne : j ≠ i := fun h => hnotin (h ▸ hjin)
      refine ⟨q, hqB, hqe, ?_⟩
      simp only [equipAt]
      rw [get?_listModify_ne _ _ hne]
      exact hq'
    · rw [List.mem_singleton] at hjone
      subst hjone
      refine ⟨p', hBi, hpe, ?_⟩
      simp only [equipAt]
      rw [get?_listModify_self, hp']
      simp [hpe]
  · intro j hj
    have hji : j ∉ idxs := fun h => hj (List.mem_append.mpr (Or.inl h))
    have hne : j ≠ i := fun h => hj (List.mem_append.mpr (Or.inr (by simp [h])))
    simp only [equipAt]
    rw [get?_listModify_ne _ _ hne]
    exact hframe j hji

theorem stagePostypes_ok (obj : OBJ_DATA) (B : BODY_DATA) :
    ∀ (types : List String) (B' : BODY_DATA) (idxs : List Nat),
    StagedOK B obj B' idxs →
    StagedOK B obj (stagePostypes (B', idxs) types obj).1 (stagePostypes (B', idxs) types obj).2 ∧
    ∃ extra, (stagePostypes (B', idxs) types obj).2 = idxs ++ extra ∧
      extra.length ≤ types.length ∧
      (extra.length = types.length →
        ∀ k ty i, types.get? k = some ty → extra.get? k = some i →
          LeastFresh B ty (idxs ++ extra.take k) i) := by
  intro types
  induction types with
  | nil =>
    intro B' idxs hOK
    refine ⟨hOK, [], by simp [stagePostypes], by simp, ?_⟩
    intro _ k ty i hk
    simp at hk
  | cons ty rest ih =>
    intro B' idxs hOK
    cases hfind : findFreeBodypartIdx B'.parts ty with
    | some i =>
      obtain ⟨hfree, hLF, hOK'⟩ := stage_step hOK hfind
      have hred : stagePostypes (B', idxs) (ty :: rest) obj =
          stagePostypes (equipAt B' i obj, idxs ++ [i]) rest obj := by
        simp [stagePostypes, hfind, hfree]
      rw [hred]
      obtain ⟨hOK'', extra', heq', hle', hstep'⟩ := ih (equipAt B' i obj) (idxs ++ [i]) hOK'
      refine ⟨hOK'', i :: extra', ?_, ?_, ?_⟩
      · rw [heq']
        simp
      · simp
        omega
      · intro hlen k ty' i' hk hi'
        have hlen' : extra'.length = rest.length := by
          simp at hlen
          omega
        cases k with
        | zero =>
          simp only [List.get?] at hk hi'
          cases hk
          cases hi'
          simpa using hLF
        | succ k =>
          simp only [List.get?] at hk hi'
          have hstep'' := hstep' hlen' k ty' i' hk hi'
          simpa [List.take_succ_cons, List.append_assoc] using hstep''
    | none =>
      have hred : stagePostypes (B', idxs) (ty :: rest) obj =
          stagePostypes (B', idxs) rest obj := by
        simp [stagePostypes, hfind]
      rw [hred]
      obtain ⟨hOK', extra, heq, hle, hstep⟩ := ih B' idxs hOK
      refine ⟨hOK', extra, heq, ?_, ?_⟩
      · simp
        omega
      · intro hlen
        exfalso
        simp at hlen
        omega

theorem rollback_restores (obj : OBJ_DATA) (B : BODY_DATA) :
    ∀ (idxs : List Nat) (B' : BODY_DATA), StagedOK B obj B' idxs →
    rollbackParts B' idxs obj = B := by
  intro idxs
  induction idxs with
  | nil =>
    intro B' hOK
    obtain ⟨hsize, hlen, _, _, hframe⟩ := hOK
    have hparts : B'.parts = B.parts := by
      apply List.ext_get?
      intro n
      exact hframe n (by simp)
    have hnil : rollbackParts B' [] obj = B' := rfl
    rw [hnil]
    cases B'
    cases B
    simp only at hsize hparts
    rw [hsize, hparts]
  | cons i rest ih =>
    intro B' hOK
    obtain ⟨hsize, hlen, hnodup, hstaged, hframe⟩ := hOK
    have hinotr : i ∉ rest := (List.nodup_cons.mp hnodup).1
    have hrest_nodup : rest.Nodup := (List.nodup_cons.mp hnodup).2
    obtain ⟨p, hpB, hpe, hp'⟩ := hstaged i (List.mem_cons_self _ _)
    have hOK' : StagedOK B obj (unequipAt B' i obj) rest := by
      refine ⟨hsize, by simp [unequipAt, length_listModify, hlen], hrest_nodup, ?_, ?_⟩
      · intro j hj
        obtain ⟨q, hqB, hqe, hq'⟩ := hstaged j (List.mem_cons_of_mem _ hj)
        have hne : j ≠ i := fun h => hinotr (h ▸ hj)
        refine ⟨q, hqB, hqe, ?_⟩
        simp only [unequipAt]
        rw [get?_listModify_ne _ _ hne]
        exact hq'
      · intro j hj
        by_cases hji : j = i
        · subst hji
          simp only [unequipAt]
          rw [get?_listModify_self, hp']
          simp only [Option.map_some']
          rw [hpB]
          have herase : ([obj] : List OBJ_DATA).erase obj = [] := by
            simp
          cases p
          simp only at hpe
          subst hpe
          simp [herase]
        · have hjni : j ∉ i :: rest := by
            simp [hji, hj]
          simp only [unequipAt]
          rw [get?_listModify_ne _ _ hji]
          exact hframe j hjni
    have hcons : rollbackParts B' (i :: rest) obj =
        rollbackParts (unequipAt B' i obj) rest obj := rfl
    rw [hcons]
    exact ih _ hOK'

/-- C2: `bodyEquipPostypes` on an empty type list fails with no change; on
failure the body is restored exactly to its input state (full rollback), so
an item absent before the call is attached to no part after it; on success
there is a list of pairwise distinct staged indices, one per requested type,
where each staged index is the first free part of the requested type in body
order among not-yet-staged parts, each staged part was previously free and
now holds exactly the item, and all other parts are untouched. -/
theorem C2_equip_postypes (B : BODY_DATA) (obj : OBJ_DATA) (types : List String) :
    (types = [] → bodyEquipPostypes B obj types = (false, B)) ∧
    ((bodyEquipPostypes B obj types).1 = false → (bodyEquipPostypes B obj types).2 = B) ∧
    ((bodyEquipPostypes B obj types).1 = false →
      (∀ p ∈ B.parts, obj ∉ p.equipment) →
      ∀ p ∈ (bodyEquipPostypes B obj types).2.parts, obj ∉ p.equipment) ∧
    ((bodyEquipPostypes B obj types).1 = true →
      ∃ idxs : List Nat, idxs.length = types.length ∧ idxs.Nodup ∧
        (∀ k ty i, types.get? k = some ty → idxs.get? k = some i →
          LeastFresh B ty (idxs.take k) i) ∧
        (∀ i ∈ idxs, ∃ p, B.parts.get? i = some p ∧ p.equipment = [] ∧
          (bodyEquipPostypes B obj types).2.parts.get? i =
            some { p with equipment := [obj] }) ∧
        (∀ i, i ∉ idxs → (bodyEquipPostypes B obj types).2.parts.get? i = B.parts.get? i) ∧
        (bodyEquipPostypes B obj types).2.size = B.size) := by
  by_cases hnil : types = []
  · subst hnil
    have hres : bodyEquipPostypes B obj [] = (false, B) := by
      simp [bodyEquipPostypes]
    refine ⟨fun _ => hres, fun _ => by rw [hres], ?_, ?_⟩
    · intro _ hB p hp
      rw [hres] at hp
      exact hB p hp
    · intro htrue
      rw [hres] at htrue
      cases htrue
  · have h0 : ¬ types.length = 0 := by
      cases types with
      | nil => exact absurd rfl hnil
      | cons t ts => simp
    obtain ⟨hOK, extra, heq, hle, hstep⟩ :=
      stagePostypes_ok obj B types B [] (StagedOK_refl B obj)
    rw [List.nil_append] at heq
    by_cases hlen : types.length = (stagePostypes (B, []) types obj).2.length
    · have hres : bodyEquipPostypes B obj types =
          (true, (stagePostypes (B, []) types obj).1) := by
        rw [bodyEquipPostypes, if_neg h0]
        rw [if_neg (fun hne => hne hlen)]
      refine ⟨fun h => absurd h hnil, ?_, ?_, ?_⟩
      · intro hfalse
        rw [hres] at hfalse
        cases hfalse
      · intro hfalse
        rw [hres] at hfalse
        cases hfalse
      · intro _
        obtain ⟨hsize, hplen, hnodup, hstaged, hframe⟩ := hOK
        refine ⟨(stagePostypes (B, []) types obj).2, hlen.symm, hnodup, ?_, ?_, ?_, ?_⟩
        · intro k ty i hk hi
          have hext : extra.length = types.length := by
            rw [heq] at hlen
            omega
          have := hstep hext k ty i hk (by rw [← heq]; exact hi)
          rw [heq]
          simpa using this
        · intro i hi
          obtain ⟨p, hpB, hpe, hp'⟩ := hstaged i hi
          refine ⟨p, hpB, hpe, ?_⟩
          rw [hres]
          exact hp'
        · intro i hi
          rw [hres]
          exact hframe i hi
        · rw [hres]
          exact hsize
    · have hroll : rollbackParts (stagePostypes (B, []) types obj).1
          (stagePostypes (B, []) types obj).2 obj = B :=
        rollback_restores obj B _ _ hOK
      have hres : bodyEquipPostypes B obj types = (false, B) := by
        rw [bodyEquipPostypes, if_neg h0, if_pos hlen, hroll]
      refine ⟨fun h => absurd h hnil, fun _ => by rw [hres], ?_, ?_⟩
      · intro _ hB p hp
        rw [hres] at hp
        exact hB p hp
      · intro htrue
        rw [hres] at htrue
        cases htrue

/-- C2 witness: requesting two fingers on a body with a single free finger
fails and restores the body unchanged; requesting one finger succeeds and
the staged slot is the first free finger in body order. -/
theorem C2_equip_postypes_witness :
    ((bodyEquipPostypes bodyFingers objB ["finger", "finger"]).2 = bodyFingers) ∧
    (∃ idxs : List Nat, idxs.length = 1 ∧ idxs.Nodup ∧
      (∀ k ty i, ([("finger" : String)]).get? k = some ty → idxs.get? k = some i →
        LeastFresh bodyFingers ty (idxs.take k) i) ∧
      (∀ i ∈ idxs, ∃ p, bodyFingers.parts.get? i = some p ∧ p.equipment = [] ∧
        (bodyEquipPostypes bodyFingers objB ["finger"]).2.parts.get? i =
          some { p with equipment := [objB] }) ∧
      (∀ i, i ∉ idxs →
        (bodyEquipPostypes bodyFingers objB ["finger"]).2.parts.get? i =
          bodyFingers.parts.get? i) ∧
      (bodyEquipPostypes bodyFingers objB ["finger"]).2.size = bodyFingers.size) := by
  constructor
  · exact (C2_equip_postypes bodyFingers objB ["finger", "finger"]).2.1 (by decide)
  · exact (C2_equip_postypes bodyFingers objB ["finger"]).2.2.2 (by decide)
